import Mathlib

/-!
# IXWebSocket: per-message deflate and TLS options

A shallow embedding of `ixwebsocket/IXWebSocketPerMessageDeflate.cpp` and
`ixwebsocket/IXSocketTLSOptions.cpp`.

zlib is an external library: its entry points, its constants and the width of
its `uInt` type are the fields of the structure `Zlib`, so every theorem holds
for whatever zlib does within its calling convention; the documented format of
a flush is the separate predicate `Zlib.flushFormat`, assumed only where it is
named.  The `do ... while` drain loops take a fuel argument and return `none`
when it runs out.
-/

namespace ix

/-- One octet of a `std::string`. -/
abbrev Byte := Fin 256

/-! ## IXSocketTLSOptions.cpp -/

/-- The data members read by `IXSocketTLSOptions.cpp` (declared in the header). -/
structure SocketTLSOptions where
  certFile : String
  keyFile : String
  caFile : String
deriving DecidableEq

/-- `SocketTLSOptions::isUsingClientCert`. -/
def SocketTLSOptions.isUsingClientCert (o : SocketTLSOptions) : Bool :=
  !o.certFile.isEmpty && !o.keyFile.isEmpty

/-- `SocketTLSOptions::isUsingSystemDefaults`. -/
def SocketTLSOptions.isUsingSystemDefaults (o : SocketTLSOptions) : Bool :=
  o.caFile == "SYSTEM"

/-- `SocketTLSOptions::isPeerVerifyDisabled`. -/
def SocketTLSOptions.isPeerVerifyDisabled (o : SocketTLSOptions) : Bool :=
  o.caFile != "NONE"

/-! ## The zlib interface -/

/-- The fields of `z_stream` that the calls exchange with the library.
`next_in` is the buffer `next_in` points at, `avail_in` and `avail_out` are the
two counters, `state` is everything the library keeps for itself.  `next_out`
always points at the start of the scratch buffer when a call is made, so the
bytes a call stores there are reported in `ZReturn.written`. -/
structure ZStream (σ : Type) where
  next_in : List Byte
  avail_in : Nat
  avail_out : Nat
  state : σ

/-- What one call of `deflate` or `inflate` leaves behind: the return code, the
updated stream and the bytes it stored at `next_out`. -/
structure ZReturn (σ : Type) where
  ret : Int
  strm : ZStream σ
  written : List Byte

/-- The part of zlib the translation unit uses.  The constants are the macros of
`zlib.h`, `uIntBits` is the width of `uInt` (`zconf.h`: 16 bits or more).  The
two `_out` laws are the calling convention of the library: a call stores bytes
at `next_out` and lowers `avail_out` by their number. -/
structure Zlib (σ : Type) where
  uIntBits : Nat
  Z_OK : Int
  Z_NEED_DICT : Int
  Z_DATA_ERROR : Int
  Z_MEM_ERROR : Int
  Z_SYNC_FLUSH : Int
  Z_FULL_FLUSH : Int
  Z_DEFAULT_COMPRESSION : Int
  Z_DEFLATED : Int
  Z_DEFAULT_STRATEGY : Int
  deflateInit2 : ZStream σ → Int → Int → Int → Int → Int → Int × ZStream σ
  deflate : ZStream σ → Int → ZReturn σ
  inflateInit2 : ZStream σ → Int → Int × ZStream σ
  inflate : ZStream σ → Int → ZReturn σ
  uInt_wide : 16 ≤ uIntBits
  deflate_out : ∀ s f, (deflate s f).strm.avail_out + (deflate s f).written.length = s.avail_out
  inflate_out : ∀ s f, (inflate s f).strm.avail_out + (inflate s f).written.length = s.avail_out

/-- The C cast `(uInt) n` of a non-negative size. -/
def Zlib.toUInt {σ : Type} (z : Zlib σ) (n : Nat) : Nat :=
  n % 2 ^ z.uIntBits

/-! ## IXWebSocketPerMessageDeflate.cpp -/

/-- `kEmptyUncompressedBlock`: the four octets `00 00 ff ff`. -/
def kEmptyUncompressedBlock : List Byte := [0x00, 0x00, 0xff, 0xff]

/-- `kBufferSize`. -/
def kBufferSize : Nat := 1 <<< 14

/-- The compressor object.  `_compressBufferSize` is set to `kBufferSize` by the
constructor and never assigned again, so the model reads `kBufferSize`; of the
scratch buffer `_compressBuffer` only whether it has been allocated is kept,
its contents between two steps are never read. -/
structure WebSocketPerMessageDeflateCompressor (σ : Type) where
  _compressBuffer : Bool
  _flush : Int
  _deflateState : ZStream σ

/-- The decompressor object, with the same conventions. -/
structure WebSocketPerMessageDeflateDecompressor (σ : Type) where
  _compressBuffer : Bool
  _flush : Int
  _inflateState : ZStream σ

/-- `WebSocketPerMessageDeflateCompressor::init`. -/
def WebSocketPerMessageDeflateCompressor.init {σ : Type} (z : Zlib σ)
    (c : WebSocketPerMessageDeflateCompressor σ) (deflateBits : Fin 256)
    (clientNoContextTakeOver : Bool) : Bool × WebSocketPerMessageDeflateCompressor σ :=
  let r := z.deflateInit2 c._deflateState z.Z_DEFAULT_COMPRESSION z.Z_DEFLATED
    (-1 * (deflateBits.val : Int)) 4 z.Z_DEFAULT_STRATEGY
  let c := { c with _deflateState := r.2 }
  if r.1 ≠ z.Z_OK then (false, c)
  else
    (true, { c with
      _compressBuffer := true
      _flush := if clientNoContextTakeOver then z.Z_FULL_FLUSH else z.Z_SYNC_FLUSH })

/-- The `std::equal (first1, last1, first2)` of the standard library, on ranges
given as lists; the second range is at least as long as the first wherever the
code calls it. -/
def equal : List Byte → List Byte → Bool
  | [], _ => true
  | _ :: _, [] => false
  | a :: as, b :: bs => a == b && equal as bs

/-- `WebSocketPerMessageDeflateCompressor::endsWith`. -/
def endsWith (value ending : List Byte) : Bool :=
  if ending.length > value.length then false
  else equal ending.reverse value.reverse

/-- One pass through the body of the loop of `compress`, up to the call:
`avail_out` and `next_out` are reset to the scratch buffer, then `deflate` runs
with the stored flush mode. -/
def deflateStep {σ : Type} (z : Zlib σ) (c : WebSocketPerMessageDeflateCompressor σ) :
    ZReturn σ :=
  z.deflate { c._deflateState with avail_out := z.toUInt kBufferSize } c._flush

/-- The `do ... while (_deflateState.avail_out == 0)` loop of `compress`. -/
def compressLoop {σ : Type} (z : Zlib σ) :
    Nat → WebSocketPerMessageDeflateCompressor σ → List Byte →
      Option (WebSocketPerMessageDeflateCompressor σ × List Byte)
  | 0, _, _ => none
  | fuel + 1, c, out =>
    let r := deflateStep z c
    let c := { c with _deflateState := r.strm }
    let output := kBufferSize - c._deflateState.avail_out
    let out := out ++ r.written.take output
    if c._deflateState.avail_out == 0 then compressLoop z fuel c out
    else some (c, out)

/-- The two assignments of `compress` that hand the input to the stream. -/
def compressSubmit {σ : Type} (z : Zlib σ) (c : WebSocketPerMessageDeflateCompressor σ)
    (input : List Byte) : WebSocketPerMessageDeflateCompressor σ :=
  { c with
    _deflateState := { c._deflateState with
      avail_in := z.toUInt input.length
      next_in := input } }

/-- `WebSocketPerMessageDeflateCompressor::compress`: the returned triple is the
boolean result, the object after the call and the string `out` after the call. -/
def WebSocketPerMessageDeflateCompressor.compress {σ : Type} (z : Zlib σ) (fuel : Nat)
    (c : WebSocketPerMessageDeflateCompressor σ) (input out : List Byte) :
    Option (Bool × WebSocketPerMessageDeflateCompressor σ × List Byte) :=
  if input.isEmpty then
    some (true, c, out ++ [0x02, 0x00, 0x00, 0x00, 0xff, 0xff])
  else
    let c := compressSubmit z c input
    match compressLoop z fuel c out with
    | none => none
    | some (c, out) =>
      if endsWith out kEmptyUncompressedBlock then
        some (true, c, out.take (out.length - 4))
      else some (true, c, out)

/-- `WebSocketPerMessageDeflateDecompressor::init`. -/
def WebSocketPerMessageDeflateDecompressor.init {σ : Type} (z : Zlib σ)
    (d : WebSocketPerMessageDeflateDecompressor σ) (inflateBits : Fin 256)
    (clientNoContextTakeOver : Bool) : Bool × WebSocketPerMessageDeflateDecompressor σ :=
  let r := z.inflateInit2 d._inflateState (-1 * (inflateBits.val : Int))
  let d := { d with _inflateState := r.2 }
  if r.1 ≠ z.Z_OK then (false, d)
  else
    (true, { d with
      _compressBuffer := true
      _flush := if clientNoContextTakeOver then z.Z_FULL_FLUSH else z.Z_SYNC_FLUSH })

/-- One pass through the body of the loop of `decompress`, up to the call. -/
def inflateStep {σ : Type} (z : Zlib σ) (d : WebSocketPerMessageDeflateDecompressor σ) :
    ZReturn σ :=
  z.inflate { d._inflateState with avail_out := z.toUInt kBufferSize } z.Z_SYNC_FLUSH

/-- The test `ret == Z_NEED_DICT || ret == Z_DATA_ERROR || ret == Z_MEM_ERROR`. -/
def zlibError {σ : Type} (z : Zlib σ) (ret : Int) : Bool :=
  ret == z.Z_NEED_DICT || ret == z.Z_DATA_ERROR || ret == z.Z_MEM_ERROR

/-- The `do ... while (_inflateState.avail_out == 0)` loop of `decompress`, with
its `return false` inside and the `return true` that follows it. -/
def decompressLoop {σ : Type} (z : Zlib σ) :
    Nat → WebSocketPerMessageDeflateDecompressor σ → List Byte →
      Option (Bool × WebSocketPerMessageDeflateDecompressor σ × List Byte)
  | 0, _, _ => none
  | fuel + 1, d, out =>
    let r := inflateStep z d
    let d := { d with _inflateState := r.strm }
    if zlibError z r.ret then some (false, d, out)
    else
      let out := out ++ r.written.take (kBufferSize - d._inflateState.avail_out)
      if d._inflateState.avail_out == 0 then decompressLoop z fuel d out
      else some (true, d, out)

/-- The first four statements of `decompress`: the copy `inFixed` of the input
with the marker appended is handed to the stream. -/
def decompressSubmit {σ : Type} (z : Zlib σ) (d : WebSocketPerMessageDeflateDecompressor σ)
    (input : List Byte) : WebSocketPerMessageDeflateDecompressor σ :=
  let inFixed := input ++ kEmptyUncompressedBlock
  { d with
    _inflateState := { d._inflateState with
      avail_in := z.toUInt inFixed.length
      next_in := inFixed } }

/-- `WebSocketPerMessageDeflateDecompressor::decompress`. -/
def WebSocketPerMessageDeflateDecompressor.decompress {σ : Type} (z : Zlib σ) (fuel : Nat)
    (d : WebSocketPerMessageDeflateDecompressor σ) (input out : List Byte) :
    Option (Bool × WebSocketPerMessageDeflateDecompressor σ × List Byte) :=
  decompressLoop z fuel (decompressSubmit z d input) out

/-- Modelled from the spec: the class `WebSocketPerMessageDeflateOptions` is
declared in a header that is not part of the sources; the three getters `init`
calls return the negotiated `CompressionParameters` of the spec. -/
structure WebSocketPerMessageDeflateOptions where
  getClientNoContextTakeover : Bool
  getClientMaxWindowBits : Fin 256
  getServerMaxWindowBits : Fin 256

/-- The object `WebSocketPerMessageDeflate` with its two owned members. -/
structure WebSocketPerMessageDeflate (σ : Type) where
  _compressor : WebSocketPerMessageDeflateCompressor σ
  _decompressor : WebSocketPerMessageDeflateDecompressor σ

/-- `WebSocketPerMessageDeflate::init`; the operator `&&` evaluates its right
operand only when the left one is true. -/
def WebSocketPerMessageDeflate.init {σ : Type} (z : Zlib σ) (p : WebSocketPerMessageDeflate σ)
    (perMessageDeflateOptions : WebSocketPerMessageDeflateOptions) :
    Bool × WebSocketPerMessageDeflate σ :=
  let clientNoContextTakeover := perMessageDeflateOptions.getClientNoContextTakeover
  let deflateBits := perMessageDeflateOptions.getClientMaxWindowBits
  let inflateBits := perMessageDeflateOptions.getServerMaxWindowBits
  let rc := p._compressor.init z deflateBits clientNoContextTakeover
  if rc.1 then
    let rd := p._decompressor.init z inflateBits clientNoContextTakeover
    (rd.1, { _compressor := rc.2, _decompressor := rd.2 })
  else (false, { p with _compressor := rc.2 })

/-- `WebSocketPerMessageDeflate::compress`. -/
def WebSocketPerMessageDeflate.compress {σ : Type} (z : Zlib σ) (fuel : Nat)
    (p : WebSocketPerMessageDeflate σ) (input out : List Byte) :
    Option (Bool × WebSocketPerMessageDeflate σ × List Byte) :=
  (p._compressor.compress z fuel input out).map
    fun r => (r.1, { p with _compressor := r.2.1 }, r.2.2)

/-- `WebSocketPerMessageDeflate::decompress`. -/
def WebSocketPerMessageDeflate.decompress {σ : Type} (z : Zlib σ) (fuel : Nat)
    (p : WebSocketPerMessageDeflate σ) (input out : List Byte) :
    Option (Bool × WebSocketPerMessageDeflate σ × List Byte) :=
  (p._decompressor.decompress z fuel input out).map
    fun r => (r.1, { p with _decompressor := r.2.1 }, r.2.2)

/-! ## Traces of the drain loops

The loops are described step by step: the object after its first `n` passes
through the loop body, and the bytes each of these passes stored. -/

/-- The compressor after `n` passes through the loop body of `compress`. -/
def compressorAfter {σ : Type} (z : Zlib σ) :
    Nat → WebSocketPerMessageDeflateCompressor σ → WebSocketPerMessageDeflateCompressor σ
  | 0, c => c
  | n + 1, c => compressorAfter z n { c with _deflateState := (deflateStep z c).strm }

/-- The bytes stored by each of the first `n` compression steps, in order. -/
def deflateChunks {σ : Type} (z : Zlib σ) :
    Nat → WebSocketPerMessageDeflateCompressor σ → List (List Byte)
  | 0, _ => []
  | n + 1, c =>
    (deflateStep z c).written ::
      deflateChunks z n { c with _deflateState := (deflateStep z c).strm }

/-- The decompressor after `n` passes through the loop body of `decompress`. -/
def decompressorAfter {σ : Type} (z : Zlib σ) :
    Nat → WebSocketPerMessageDeflateDecompressor σ → WebSocketPerMessageDeflateDecompressor σ
  | 0, d => d
  | n + 1, d => decompressorAfter z n { d with _inflateState := (inflateStep z d).strm }

/-- The bytes stored by each of the first `n` decompression steps, in order. -/
def inflateChunks {σ : Type} (z : Zlib σ) :
    Nat → WebSocketPerMessageDeflateDecompressor σ → List (List Byte)
  | 0, _ => []
  | n + 1, d =>
    (inflateStep z d).written ::
      inflateChunks z n { d with _inflateState := (inflateStep z d).strm }

/-- The objects a compressor can become through calls of `compress`. -/
inductive CompressorReach {σ : Type} (z : Zlib σ) (c₀ : WebSocketPerMessageDeflateCompressor σ) :
    WebSocketPerMessageDeflateCompressor σ → Prop
  | start : CompressorReach z c₀ c₀
  | call {c c₁ : WebSocketPerMessageDeflateCompressor σ} {fuel : Nat} {input out out₁ : List Byte}
      {ok : Bool} : CompressorReach z c₀ c → c.compress z fuel input out = some (ok, c₁, out₁) →
      CompressorReach z c₀ c₁

/-! ## A scripted library

A small library within the calling convention, used to run the code on concrete
inputs: its private state is a script, each call of `deflate` or `inflate`
takes the next entry of the script, returns its code and stores as many of its
bytes as fit.  `deflateInit2` accepts the raw window sizes 9 to 15, as zlib
does, and `inflateInit2` the raw window sizes 8 to 15. -/

/-- One call of the scripted library. -/
def scriptCall (s : ZStream (List (Int × List Byte))) : ZReturn (List (Int × List Byte)) :=
  let e := s.state.headD (0, [])
  let w := e.2.take s.avail_out
  { ret := e.1
    strm := { s with avail_in := 0, avail_out := s.avail_out - w.length, state := s.state.tail }
    written := w }

/-- The scripted library, with the values `zlib.h` gives its constants and a
32-bit `uInt`. -/
def scriptZlib : Zlib (List (Int × List Byte)) where
  uIntBits := 32
  Z_OK := 0
  Z_NEED_DICT := 2
  Z_DATA_ERROR := -3
  Z_MEM_ERROR := -4
  Z_SYNC_FLUSH := 2
  Z_FULL_FLUSH := 3
  Z_DEFAULT_COMPRESSION := -1
  Z_DEFLATED := 8
  Z_DEFAULT_STRATEGY := 0
  deflateInit2 := fun s _ _ windowBits _ _ =>
    if -15 ≤ windowBits ∧ windowBits ≤ -9 then (0, s) else (-2, s)
  deflate := fun s _ => scriptCall s
  inflateInit2 := fun s windowBits =>
    if -15 ≤ windowBits ∧ windowBits ≤ -8 then (0, s) else (-2, s)
  inflate := fun s _ => scriptCall s
  uInt_wide := by decide
  deflate_out := fun s _ => by
    simp only [scriptCall, List.length_take]
    omega
  inflate_out := fun s _ => by
    simp only [scriptCall, List.length_take]
    omega

/-- A compressor as the constructor leaves it, over the scripted library. -/
def scriptCompressor (script : List (Int × List Byte)) :
    WebSocketPerMessageDeflateCompressor (List (Int × List Byte)) :=
  { _compressBuffer := false, _flush := 0
    _deflateState := { next_in := [], avail_in := 0, avail_out := 0, state := script } }

/-- A decompressor as the constructor leaves it, over the scripted library. -/
def scriptDecompressor (script : List (Int × List Byte)) :
    WebSocketPerMessageDeflateDecompressor (List (Int × List Byte)) :=
  { _compressBuffer := false, _flush := 0
    _inflateState := { next_in := [], avail_in := 0, avail_out := 0, state := script } }

/-! ## Calls of `deflate` with a given flush mode

The same steps as above, written on the stream alone and with the flush mode
as an explicit argument, so that statements can name the mode `deflate`
receives. -/

/-- One call of `deflate` with flush mode `flush`, the whole scratch buffer being
offered as output space. -/
def deflateWith {σ : Type} (z : Zlib σ) (flush : Int) (s : ZStream σ) : ZReturn σ :=
  z.deflate { s with avail_out := z.toUInt kBufferSize } flush

/-- The stream after `n` consecutive calls of `deflate` with flush mode `flush`. -/
def streamAfter {σ : Type} (z : Zlib σ) (flush : Int) : Nat → ZStream σ → ZStream σ
  | 0, s => s
  | n + 1, s => streamAfter z flush n (deflateWith z flush s).strm

/-- The bytes stored by each of `n` consecutive calls of `deflate` with flush
mode `flush`, in order. -/
def writtenBy {σ : Type} (z : Zlib σ) (flush : Int) : Nat → ZStream σ → List (List Byte)
  | 0, _ => []
  | n + 1, s =>
    (deflateWith z flush s).written :: writtenBy z flush n (deflateWith z flush s).strm

/-- The format of a flush, as `zlib.h` documents it: with `Z_SYNC_FLUSH` all
pending output is flushed, the current block is completed and followed "with an
empty stored block that is three bits plus filler bits to the next byte,
followed by four bytes (00 00 ff ff)", and with `Z_FULL_FLUSH` "all output is
flushed as with Z_SYNC_FLUSH".  The three bits and the filler bits are zero and
end at a byte boundary, so the byte before the four bytes has its top bit clear.
Stated on the drain of a flush: calls are repeated while they fill the scratch
buffer; once a call leaves room, the bytes stored so far are either none at all
(nothing was pending and nothing was submitted) or end with such a byte followed
by `00 00 ff ff`. -/
def Zlib.flushFormat {σ : Type} (z : Zlib σ) : Prop :=
  ∀ (s : ZStream σ) (flush : Int) (n : Nat),
    (flush = z.Z_SYNC_FLUSH ∨ flush = z.Z_FULL_FLUSH) →
    (∀ chunk ∈ writtenBy z flush n s, chunk.length = kBufferSize) →
    (deflateWith z flush (streamAfter z flush n s)).written.length < kBufferSize →
    (writtenBy z flush (n + 1) s).flatten = [] ∨
      ∃ (pre : List Byte) (b : Byte), b.val < 0x80 ∧
        (writtenBy z flush (n + 1) s).flatten = pre ++ b :: kEmptyUncompressedBlock

/-! ## An echoing library

A second small library, without private state: every call stores the flush
mode it received, as one byte, followed by an empty stored block
`00 00 00 ff ff`. -/

/-- One call of the echoing library. -/
def echoCall (s : ZStream Unit) (flush : Int) : ZReturn Unit :=
  let w := ([Fin.ofNat flush.toNat, 0x00, 0x00, 0x00, 0xff, 0xff] : List Byte).take s.avail_out
  { ret := 0
    strm := { s with avail_in := 0, avail_out := s.avail_out - w.length }
    written := w }

/-- The echoing library, with the values `zlib.h` gives its constants and a
32-bit `uInt`. -/
def echoZlib : Zlib Unit where
  uIntBits := 32
  Z_OK := 0
  Z_NEED_DICT := 2
  Z_DATA_ERROR := -3
  Z_MEM_ERROR := -4
  Z_SYNC_FLUSH := 2
  Z_FULL_FLUSH := 3
  Z_DEFAULT_COMPRESSION := -1
  Z_DEFLATED := 8
  Z_DEFAULT_STRATEGY := 0
  deflateInit2 := fun s _ _ windowBits _ _ =>
    if -15 ≤ windowBits ∧ windowBits ≤ -9 then (0, s) else (-2, s)
  deflate := echoCall
  inflateInit2 := fun s windowBits =>
    if -15 ≤ windowBits ∧ windowBits ≤ -8 then (0, s) else (-2, s)
  inflate := echoCall
  uInt_wide := by decide
  deflate_out := fun s _ => by
    simp only [echoCall, List.length_take]
    omega
  inflate_out := fun s _ => by
    simp only [echoCall, List.length_take]
    omega

/-- A compressor as the constructor leaves it, over the echoing library. -/
def echoCompressor : WebSocketPerMessageDeflateCompressor Unit :=
  { _compressBuffer := false, _flush := 0
    _deflateState := { next_in := [], avail_in := 0, avail_out := 0, state := () } }

/-- The compressor over the echoing library after `init` with a 15-bit window
and no context takeover. -/
def echoCompressorFull : WebSocketPerMessageDeflateCompressor Unit :=
  (echoCompressor.init echoZlib 15 true).2

/-- The compressor `echoCompressorFull` after `compress` of the payload `61`. -/
def echoCompressorFullAfter : WebSocketPerMessageDeflateCompressor Unit :=
  { echoCompressorFull with
    _deflateState := { next_in := [0x61], avail_in := 0, avail_out := 16378, state := () } }

end ix

namespace ix

/-! ## The drain loops, step by step -/

theorem toUInt_kBufferSize {σ : Type} (z : Zlib σ) : z.toUInt kBufferSize = kBufferSize := by
  unfold Zlib.toUInt
  apply Nat.mod_eq_of_lt
  calc kBufferSize < 2 ^ 16 := by decide
    _ ≤ 2 ^ z.uIntBits := Nat.pow_le_pow_right (by decide) z.uInt_wide

theorem deflateStep_out {σ : Type} (z : Zlib σ) (c : WebSocketPerMessageDeflateCompressor σ) :
    (deflateStep z c).strm.avail_out + (deflateStep z c).written.length = kBufferSize := by
  have h := z.deflate_out { c._deflateState with avail_out := z.toUInt kBufferSize } c._flush
  simpa [deflateStep, toUInt_kBufferSize] using h

theorem inflateStep_out {σ : Type} (z : Zlib σ) (d : WebSocketPerMessageDeflateDecompressor σ) :
    (inflateStep z d).strm.avail_out + (inflateStep z d).written.length = kBufferSize := by
  have h := z.inflate_out { d._inflateState with avail_out := z.toUInt kBufferSize }
    z.Z_SYNC_FLUSH
  simpa [inflateStep, toUInt_kBufferSize] using h

/-- The loop of `compress` returns with fuel `fuel` exactly when some step
`n < fuel` is the first to leave room in the scratch buffer; the result is then
the object after `n + 1` steps and `out` followed by the bytes of these steps. -/
theorem compressLoop_eq_some {σ : Type} (z : Zlib σ) (fuel : Nat)
    (c : WebSocketPerMessageDeflateCompressor σ) (out : List Byte)
    (c₁ : WebSocketPerMessageDeflateCompressor σ) (out₁ : List Byte) :
    compressLoop z fuel c out = some (c₁, out₁) ↔
      ∃ n, n < fuel ∧ (∀ chunk ∈ deflateChunks z n c, chunk.length = kBufferSize) ∧
        (deflateStep z (compressorAfter z n c)).written.length < kBufferSize ∧
        c₁ = compressorAfter z (n + 1) c ∧
        out₁ = out ++ (deflateChunks z (n + 1) c).flatten := by
  induction fuel generalizing c out with
  | zero => simp [compressLoop]
  | succ fuel ih =>
    have hout := deflateStep_out z c
    have htake : (deflateStep z c).written.take
        (kBufferSize - (deflateStep z c).strm.avail_out) = (deflateStep z c).written := by
      apply List.take_of_length_le
      omega
    unfold compressLoop
    simp only [htake]
    by_cases h0 : (deflateStep z c).strm.avail_out = 0
    · simp only [h0, beq_self_eq_true, if_true]
      rw [ih]
      constructor
      · rintro ⟨n, hn, hfull, hlast, hc, ho⟩
        refine ⟨n + 1, by omega, ?_, hlast, hc, ?_⟩
        · intro chunk hmem
          simp only [deflateChunks, List.mem_cons] at hmem
          rcases hmem with rfl | hmem
          · omega
          · exact hfull _ hmem
        · rw [ho]
          simp [deflateChunks]
      · rintro ⟨n, hn, hfull, hlast, hc, ho⟩
        cases n with
        | zero =>
          simp only [compressorAfter] at hlast
          omega
        | succ m =>
          refine ⟨m, by omega, ?_, hlast, hc, ?_⟩
          · intro chunk hmem
            exact hfull _ (by simp only [deflateChunks, List.mem_cons]; exact Or.inr hmem)
          · rw [ho]
            simp [deflateChunks]
    · have hne : ((deflateStep z c).strm.avail_out == 0) = false := by simpa using h0
      simp only [hne]
      constructor
      · intro h
        simp only [Bool.false_eq_true, if_false, Option.some.injEq, Prod.mk.injEq] at h
        refine ⟨0, by omega, by simp [deflateChunks], ?_, ?_, ?_⟩
        · simp only [compressorAfter]
          omega
        · simp [compressorAfter, h.1.symm]
        · simp [deflateChunks, h.2.symm]
      · rintro ⟨n, hn, hfull, hlast, hc, ho⟩
        cases n with
        | zero =>
          simp [compressorAfter, deflateChunks] at hc ho
          simp [hc, ho]
        | succ m =>
          have := hfull (deflateStep z c).written (by simp [deflateChunks])
          omega

theorem decompressorAfter_succ {σ : Type} (z : Zlib σ) (n : Nat)
    (d : WebSocketPerMessageDeflateDecompressor σ) :
    decompressorAfter z (n + 1) d =
      { decompressorAfter z n d with
        _inflateState := (inflateStep z (decompressorAfter z n d)).strm } := by
  induction n generalizing d with
  | zero => rfl
  | succ n ih =>
    show decompressorAfter z (n + 1) _ = _
    rw [ih]
    rfl

/-- The loop of `decompress` returns with fuel `fuel` exactly when some step
`n < fuel` is the first that reports an error or leaves room in the scratch
buffer. -/
theorem decompressLoop_eq_some {σ : Type} (z : Zlib σ) (fuel : Nat)
    (d : WebSocketPerMessageDeflateDecompressor σ) (out : List Byte) (ok : Bool)
    (d₁ : WebSocketPerMessageDeflateDecompressor σ) (out₁ : List Byte) :
    decompressLoop z fuel d out = some (ok, d₁, out₁) ↔
      ∃ n, n < fuel ∧
        (∀ i, i < n → zlibError z (inflateStep z (decompressorAfter z i d)).ret = false) ∧
        (∀ chunk ∈ inflateChunks z n d, chunk.length = kBufferSize) ∧
        ok = !zlibError z (inflateStep z (decompressorAfter z n d)).ret ∧
        (ok = true → (inflateStep z (decompressorAfter z n d)).written.length < kBufferSize) ∧
        d₁ = decompressorAfter z (n + 1) d ∧
        out₁ = out ++ (inflateChunks z (if ok then n + 1 else n) d).flatten := by
  induction fuel generalizing d out with
  | zero => simp [decompressLoop]
  | succ fuel ih =>
    have hout := inflateStep_out z d
    have htake : (inflateStep z d).written.take
        (kBufferSize - (inflateStep z d).strm.avail_out) = (inflateStep z d).written := by
      apply List.take_of_length_le
      omega
    unfold decompressLoop
    simp only [htake]
    cases herr : zlibError z (inflateStep z d).ret with
    | true =>
      simp only [if_true, Option.some.injEq, Prod.mk.injEq]
      constructor
      · rintro ⟨rfl, rfl, rfl⟩
        refine ⟨0, by omega, by simp, by simp [inflateChunks], ?_, by simp, rfl, ?_⟩
        · simp [decompressorAfter, herr]
        · simp [inflateChunks]
      · rintro ⟨n, hn, hnf, hfull, hok, hlast, hd, ho⟩
        cases n with
        | zero =>
          simp only [decompressorAfter, herr, Bool.not_true] at hok
          subst hok
          simp only [decompressorAfter] at hd
          simp only [Bool.false_eq_true, if_false, inflateChunks, List.flatten_nil,
            List.append_nil] at ho
          exact ⟨rfl, hd.symm, ho.symm⟩
        | succ m =>
          have := hnf 0 (by omega)
          simp only [decompressorAfter, herr] at this
          exact absurd this (by decide)
    | false =>
      simp only [Bool.false_eq_true, if_false]
      by_cases h0 : (inflateStep z d).strm.avail_out = 0
      · simp only [h0, beq_self_eq_true, if_true]
        rw [ih]
        constructor
        · rintro ⟨n, hn, hnf, hfull, hok, hlast, hd, ho⟩
          refine ⟨n + 1, by omega, ?_, ?_, hok, hlast, hd, ?_⟩
          · intro i hi
            cases i with
            | zero => simpa [decompressorAfter] using herr
            | succ j => exact hnf j (by omega)
          · intro chunk hmem
            simp only [inflateChunks, List.mem_cons] at hmem
            rcases hmem with rfl | hmem
            · omega
            · exact hfull _ hmem
          · rw [ho]
            cases ok <;> simp [inflateChunks]
        · rintro ⟨n, hn, hnf, hfull, hok, hlast, hd, ho⟩
          cases n with
          | zero =>
            simp only [decompressorAfter, herr, Bool.not_false] at hok
            have := hlast hok
            simp only [decompressorAfter] at this
            omega
          | succ m =>
            refine ⟨m, by omega, fun i hi => hnf (i + 1) (by omega), ?_, hok, hlast, hd, ?_⟩
            · intro chunk hmem
              exact hfull _ (by simp only [inflateChunks, List.mem_cons]; exact Or.inr hmem)
            · rw [ho]
              cases ok <;> simp [inflateChunks]
      · have hne : ((inflateStep z d).strm.avail_out == 0) = false := by simpa using h0
        simp only [hne, Bool.false_eq_true, if_false, Option.some.injEq, Prod.mk.injEq]
        constructor
        · rintro ⟨rfl, rfl, rfl⟩
          refine ⟨0, by omega, by simp, by simp [inflateChunks], ?_, ?_, rfl, ?_⟩
          · simp [decompressorAfter, herr]
          · intro _
            simp only [decompressorAfter]
            omega
          · simp [inflateChunks]
        · rintro ⟨n, hn, hnf, hfull, hok, hlast, hd, ho⟩
          cases n with
          | zero =>
            simp only [decompressorAfter, herr, Bool.not_false] at hok
            subst hok
            simp only [decompressorAfter] at hd
            simp only [if_true, inflateChunks, List.flatten_cons, List.flatten_nil,
              List.append_nil] at ho
            exact ⟨rfl, hd.symm, ho.symm⟩
          | succ m =>
            have := hfull (inflateStep z d).written (by simp [inflateChunks])
            omega

theorem compressorAfter_succ {σ : Type} (z : Zlib σ) (n : Nat)
    (c : WebSocketPerMessageDeflateCompressor σ) :
    compressorAfter z (n + 1) c =
      { compressorAfter z n c with
        _deflateState := (deflateStep z (compressorAfter z n c)).strm } := by
  induction n generalizing c with
  | zero => rfl
  | succ n ih =>
    show compressorAfter z (n + 1) _ = _
    rw [ih]
    rfl

theorem compressorAfter_flush {σ : Type} (z : Zlib σ) (n : Nat)
    (c : WebSocketPerMessageDeflateCompressor σ) :
    (compressorAfter z n c)._flush = c._flush := by
  induction n generalizing c with
  | zero => rfl
  | succ n ih =>
    show (compressorAfter z n _)._flush = _
    rw [ih]

theorem equal_iff_isPrefix (a b : List Byte) : equal a b = true ↔ a <+: b := by
  induction a generalizing b with
  | nil => simp [equal]
  | cons x a ih =>
    cases b with
    | nil => simp [equal]
    | cons y b => simp [equal, ih, List.cons_prefix_cons]

theorem endsWith_iff_isSuffix (value ending : List Byte) :
    endsWith value ending = true ↔ ending <:+ value := by
  unfold endsWith
  by_cases h : ending.length > value.length
  · simp only [h, if_true, Bool.false_eq_true, false_iff]
    intro hs
    have := hs.length_le
    omega
  · simp only [h, if_false, equal_iff_isPrefix, List.reverse_prefix]

/-- What `compress` returns on a non-empty input, in terms of its loop. -/
theorem compress_eq_some {σ : Type} (z : Zlib σ) (fuel : Nat)
    (c : WebSocketPerMessageDeflateCompressor σ) (input out : List Byte) (hin : input ≠ [])
    (ok : Bool) (c₁ : WebSocketPerMessageDeflateCompressor σ) (out₁ : List Byte) :
    c.compress z fuel input out = some (ok, c₁, out₁) ↔
      ∃ raw, compressLoop z fuel (compressSubmit z c input) out = some (c₁, raw) ∧ ok = true ∧
        out₁ = if endsWith raw kEmptyUncompressedBlock then raw.take (raw.length - 4)
          else raw := by
  have hne : input.isEmpty = false := by
    cases input with
    | nil => exact absurd rfl hin
    | cons _ _ => rfl
  unfold WebSocketPerMessageDeflateCompressor.compress
  simp only [hne, Bool.false_eq_true, if_false]
  cases hloop : compressLoop z fuel (compressSubmit z c input) out with
  | none => simp
  | some r =>
    obtain ⟨c', raw⟩ := r
    show (if endsWith raw kEmptyUncompressedBlock = true then
        some (true, c', raw.take (raw.length - 4)) else some (true, c', raw)) =
          some (ok, c₁, out₁) ↔ _
    constructor
    · intro h
      refine ⟨raw, ?_⟩
      split at h <;> simp only [Option.some.injEq, Prod.mk.injEq] at h <;>
        obtain ⟨rfl, rfl, rfl⟩ := h <;> simp [*]
    · rintro ⟨raw', h1, rfl, rfl⟩
      simp only [Option.some.injEq, Prod.mk.injEq] at h1
      obtain ⟨rfl, rfl⟩ := h1
      split <;> rfl

/-- Removing the marker once leaves a string that ends with the marker exactly
when the original ended with the marker twice. -/
theorem endsWith_after_truncation (raw : List Byte) :
    endsWith (if endsWith raw kEmptyUncompressedBlock then raw.take (raw.length - 4) else raw)
        kEmptyUncompressedBlock = true ↔
      ∃ pre, raw = pre ++ [0x00, 0x00, 0xff, 0xff, 0x00, 0x00, 0xff, 0xff] := by
  by_cases h : endsWith raw kEmptyUncompressedBlock = true
  · simp only [h, if_true]
    obtain ⟨pre, rfl⟩ := (endsWith_iff_isSuffix _ _).1 h
    have hlen : (pre ++ kEmptyUncompressedBlock).length - 4 = pre.length := by
      simp [kEmptyUncompressedBlock]
    rw [hlen, List.take_left, endsWith_iff_isSuffix]
    constructor
    · rintro ⟨p, rfl⟩
      exact ⟨p, by simp [kEmptyUncompressedBlock]⟩
    · rintro ⟨p, hp⟩
      refine ⟨p, ?_⟩
      have hp2 : pre ++ kEmptyUncompressedBlock =
          (p ++ kEmptyUncompressedBlock) ++ kEmptyUncompressedBlock := by
        rw [hp]
        simp [kEmptyUncompressedBlock]
      exact (List.append_cancel_right hp2).symm
  · simp only [h, Bool.false_eq_true, if_false, false_iff]
    rintro ⟨p, hp⟩
    apply h
    rw [endsWith_iff_isSuffix]
    exact ⟨p ++ [0x00, 0x00, 0xff, 0xff], by rw [hp]; simp [kEmptyUncompressedBlock]⟩

theorem compress_flush {σ : Type} (z : Zlib σ) (fuel : Nat)
    (c : WebSocketPerMessageDeflateCompressor σ) (input out : List Byte) (ok : Bool)
    (c₁ : WebSocketPerMessageDeflateCompressor σ) (out₁ : List Byte)
    (h : c.compress z fuel input out = some (ok, c₁, out₁)) : c₁._flush = c._flush := by
  by_cases hin : input = []
  · subst hin
    simp only [WebSocketPerMessageDeflateCompressor.compress, List.isEmpty_nil, if_true,
      Option.some.injEq, Prod.mk.injEq] at h
    rw [← h.2.1]
  · obtain ⟨raw, hloop, -, -⟩ := (compress_eq_some z fuel c input out hin ok c₁ out₁).1 h
    obtain ⟨n, -, -, -, hc, -⟩ := (compressLoop_eq_some z fuel _ out c₁ raw).1 hloop
    rw [hc, compressorAfter_flush]
    rfl

/-- Appending the marker to a string from which `compress` removed it gives the
string back. -/
theorem marker_restored (raw : List Byte) (h : endsWith raw kEmptyUncompressedBlock = true) :
    raw.take (raw.length - 4) ++ kEmptyUncompressedBlock = raw := by
  obtain ⟨pre, rfl⟩ := (endsWith_iff_isSuffix _ _).1 h
  have hlen : (pre ++ kEmptyUncompressedBlock).length - 4 = pre.length := by
    simp [kEmptyUncompressedBlock]
  rw [hlen, List.take_left]

/-- What the decompressor hands to `inflate` when it is given the result of
`compress` on a non-empty payload: the bytes the `deflate` steps stored, when
these end with the marker, and these bytes followed by the marker when they do
not. -/
theorem decompressSubmit_of_compress {σ : Type} (z : Zlib σ) (fuel : Nat)
    (c : WebSocketPerMessageDeflateCompressor σ) (d : WebSocketPerMessageDeflateDecompressor σ)
    (input : List Byte) (ok : Bool) (c₁ : WebSocketPerMessageDeflateCompressor σ)
    (out₁ : List Byte) (hin : input ≠ [])
    (h : c.compress z fuel input [] = some (ok, c₁, out₁)) :
    ∃ n raw, n < fuel ∧ raw = (deflateChunks z (n + 1) (compressSubmit z c input)).flatten ∧
      (decompressSubmit z d out₁)._inflateState.next_in =
        if endsWith raw kEmptyUncompressedBlock then raw else raw ++ kEmptyUncompressedBlock := by
  obtain ⟨raw, hloop, -, hout⟩ := (compress_eq_some z fuel c input [] hin ok c₁ out₁).1 h
  obtain ⟨n, hn, -, -, -, hraw⟩ := (compressLoop_eq_some z fuel _ [] c₁ raw).1 hloop
  rw [List.nil_append] at hraw
  refine ⟨n, raw, hn, hraw, ?_⟩
  show out₁ ++ kEmptyUncompressedBlock = _
  rw [hout]
  by_cases he : endsWith raw kEmptyUncompressedBlock = true
  · simp only [he, if_true]
    exact marker_restored raw he
  · simp only [he, Bool.false_eq_true, if_false]

/-- What the decompressor hands to `inflate` when it is given the result of
`compress` on the empty payload: the six bytes of the literal followed by the
marker. -/
theorem decompressSubmit_of_compress_empty {σ : Type} (z : Zlib σ)
    (d : WebSocketPerMessageDeflateDecompressor σ) :
    (decompressSubmit z d [0x02, 0x00, 0x00, 0x00, 0xff, 0xff])._inflateState.next_in =
      [0x02, 0x00, 0x00, 0x00, 0xff, 0xff, 0x00, 0x00, 0xff, 0xff] := by
  rfl

/-! ## Steps of `compress` as calls of `deflate` with the stored mode -/

theorem writtenBy_flush {σ : Type} (z : Zlib σ) (n : Nat)
    (c : WebSocketPerMessageDeflateCompressor σ) :
    writtenBy z c._flush n c._deflateState = deflateChunks z n c := by
  induction n generalizing c with
  | zero => rfl
  | succ n ih =>
    show (deflateStep z c).written :: writtenBy z c._flush n (deflateStep z c).strm = _
    exact congrArg _ (ih { c with _deflateState := (deflateStep z c).strm })

theorem compressorAfter_eq {σ : Type} (z : Zlib σ) (n : Nat)
    (c : WebSocketPerMessageDeflateCompressor σ) :
    compressorAfter z n c =
      { c with _deflateState := streamAfter z c._flush n c._deflateState } := by
  induction n generalizing c with
  | zero => rfl
  | succ n ih => exact ih { c with _deflateState := (deflateStep z c).strm }

theorem init_flush {σ : Type} (z : Zlib σ) (c : WebSocketPerMessageDeflateCompressor σ)
    (deflateBits : Fin 256) (clientNoContextTakeOver : Bool)
    (c₁ : WebSocketPerMessageDeflateCompressor σ)
    (h : c.init z deflateBits clientNoContextTakeOver = (true, c₁)) :
    c₁._flush = (if clientNoContextTakeOver then z.Z_FULL_FLUSH else z.Z_SYNC_FLUSH) := by
  unfold WebSocketPerMessageDeflateCompressor.init at h
  simp only at h
  split at h
  · exact absurd (Prod.mk.inj h).1 (by decide)
  · rw [← (Prod.mk.inj h).2]

theorem reach_flush {σ : Type} (z : Zlib σ) (c₁ c₂ : WebSocketPerMessageDeflateCompressor σ)
    (hreach : CompressorReach z c₁ c₂) : c₂._flush = c₁._flush := by
  induction hreach with
  | start => rfl
  | call _ hcall ih => rw [compress_flush z _ _ _ _ _ _ _ hcall, ih]

/-- What a call of `compress` on a non-empty input returns, in terms of calls of
`deflate` with the mode `f` the object stores. -/
theorem compress_calls_deflate {σ : Type} (z : Zlib σ) (fuel : Nat)
    (c : WebSocketPerMessageDeflateCompressor σ) (f : Int) (hf : c._flush = f)
    (input out : List Byte) (ok : Bool)
    (c₁ : WebSocketPerMessageDeflateCompressor σ) (out₁ : List Byte) (hin : input ≠ [])
    (h : c.compress z fuel input out = some (ok, c₁, out₁)) :
    ∃ n, n < fuel ∧
      (∀ chunk ∈ writtenBy z f n (compressSubmit z c input)._deflateState,
        chunk.length = kBufferSize) ∧
      (deflateWith z f
        (streamAfter z f n (compressSubmit z c input)._deflateState)).written.length
          < kBufferSize ∧
      c₁ = { c with
        _deflateState := streamAfter z f (n + 1) (compressSubmit z c input)._deflateState } ∧
      compressLoop z fuel (compressSubmit z c input) out =
        some (c₁, out ++
          (writtenBy z f (n + 1) (compressSubmit z c input)._deflateState).flatten) ∧
      out₁ =
        if endsWith (out ++
            (writtenBy z f (n + 1) (compressSubmit z c input)._deflateState).flatten)
            kEmptyUncompressedBlock then
          (out ++ (writtenBy z f (n + 1)
            (compressSubmit z c input)._deflateState).flatten).take
            ((out ++ (writtenBy z f (n + 1)
              (compressSubmit z c input)._deflateState).flatten).length - 4)
        else out ++
          (writtenBy z f (n + 1) (compressSubmit z c input)._deflateState).flatten := by
  subst hf
  obtain ⟨raw, hloop, -, hout⟩ := (compress_eq_some z fuel c input out hin ok c₁ out₁).1 h
  obtain ⟨n, hn, hfull, hlast, hc, hraw⟩ := (compressLoop_eq_some z fuel _ out c₁ raw).1 hloop
  have hw : ∀ k, writtenBy z c._flush k (compressSubmit z c input)._deflateState =
      deflateChunks z k (compressSubmit z c input) :=
    fun k => writtenBy_flush z k (compressSubmit z c input)
  refine ⟨n, hn, ?_, ?_, ?_, ?_, ?_⟩
  · rw [hw]
    exact hfull
  · rw [compressorAfter_eq] at hlast
    exact hlast
  · rw [hc, compressorAfter_eq]
    rfl
  · rw [hw, ← hraw]
    exact hloop
  · rw [hw, ← hraw]
    exact hout

theorem echoZlib_flushFormat : echoZlib.flushFormat := by
  intro s flush n _ hfull _
  have hw : ∀ t : ZStream Unit, (deflateWith echoZlib flush t).written =
      [Fin.ofNat flush.toNat, 0x00, 0x00, 0x00, 0xff, 0xff] := by
    intro t
    show List.take (echoZlib.toUInt kBufferSize) _ = _
    rw [toUInt_kBufferSize]
    apply List.take_of_length_le
    show 6 ≤ kBufferSize
    decide
  cases n with
  | zero =>
    refine Or.inr ⟨[Fin.ofNat flush.toNat], 0x00, by decide, ?_⟩
    simp [writtenBy, hw, kEmptyUncompressedBlock]
  | succ m =>
    have h6 := hfull (deflateWith echoZlib flush s).written (List.mem_cons_self _ _)
    rw [hw] at h6
    have h7 : (6 : Nat) = kBufferSize := h6
    exact absurd h7 (by decide)

/-! ## TLS options -/

/-- C10, at the input where the code departs from it: `isPeerVerifyDisabled`
is the negation of `caFile == "NONE"`, so with `caFile` equal to `"SYSTEM"` both
`isUsingSystemDefaults` and `isPeerVerifyDisabled` return true, and with
`caFile` equal to `"NONE"` the latter returns false. -/
theorem isPeerVerifyDisabled_at_SYSTEM :
    (∀ o : SocketTLSOptions, o.isPeerVerifyDisabled = !(o.caFile == "NONE")) ∧
    SocketTLSOptions.isUsingSystemDefaults ⟨"", "", "SYSTEM"⟩ = true ∧
    SocketTLSOptions.isPeerVerifyDisabled ⟨"", "", "SYSTEM"⟩ = true ∧
    SocketTLSOptions.isPeerVerifyDisabled ⟨"", "", "NONE"⟩ = false := by
  refine ⟨fun o => rfl, by decide, by decide, by decide⟩

/-! ## The empty payload -/

/-- C2: on every compressor, with every library and every amount of fuel (none
included), `compress` of the empty input returns true, leaves the object as it
was and turns an empty `out` into exactly `02 00 00 00 ff ff`. -/
theorem compress_empty {σ : Type} (z : Zlib σ) (fuel : Nat)
    (c : WebSocketPerMessageDeflateCompressor σ) :
    c.compress z fuel [] [] = some (true, c, [0x02, 0x00, 0x00, 0x00, 0xff, 0xff]) := by
  rfl

/-- C3, at the input where the code departs from it: for the empty payload the
bytes `compress` returns end with the marker `00 00 ff ff`; the early return
comes before the truncation. -/
theorem compress_empty_endsWith_marker {σ : Type} (z : Zlib σ) (fuel : Nat)
    (c : WebSocketPerMessageDeflateCompressor σ) :
    ∃ out, c.compress z fuel [] [] = some (true, c, out) ∧
      endsWith out kEmptyUncompressedBlock = true :=
  ⟨[0x02, 0x00, 0x00, 0x00, 0xff, 0xff], rfl, by decide⟩

/-! ## Initialisation of the pair -/

/-- C7 as stated fails: with a client window of 8 bits the scripted library
rejects `deflateInit2`, `init` of the pair returns false and the decompressor is
still as constructed, scratch buffer not allocated, whereas its own `init`
would have succeeded and allocated it. -/
theorem pair_init_skips_decompressor :
    let p : WebSocketPerMessageDeflate (List (Int × List Byte)) :=
      { _compressor := scriptCompressor [], _decompressor := scriptDecompressor [] }
    let o : WebSocketPerMessageDeflateOptions :=
      { getClientNoContextTakeover := true, getClientMaxWindowBits := 8
        getServerMaxWindowBits := 15 }
    (p._compressor.init scriptZlib 8 true).1 = false ∧
    (p.init scriptZlib o).1 = false ∧
    (p.init scriptZlib o).2._decompressor._compressBuffer = false ∧
    (p.init scriptZlib o).2._decompressor._flush = 0 ∧
    (p._decompressor.init scriptZlib 15 true).1 = true ∧
    (p._decompressor.init scriptZlib 15 true).2._compressBuffer = true ∧
    (p._decompressor.init scriptZlib 15 true).2._flush = 3 := by
  decide

/-- C7 as amended: `init` of the pair always runs the `init` of the compressor;
it runs the `init` of the decompressor exactly when that of the compressor
returned true, and then returns its result; when the compressor fails the
result is false and the decompressor is the one the pair had before. -/
theorem pair_init_short_circuit {σ : Type} (z : Zlib σ) (p : WebSocketPerMessageDeflate σ)
    (o : WebSocketPerMessageDeflateOptions) :
    (p.init z o).2._compressor =
      (p._compressor.init z o.getClientMaxWindowBits o.getClientNoContextTakeover).2 ∧
    ((p._compressor.init z o.getClientMaxWindowBits o.getClientNoContextTakeover).1 = true →
      (p.init z o).1 =
        (p._decompressor.init z o.getServerMaxWindowBits o.getClientNoContextTakeover).1 ∧
      (p.init z o).2._decompressor =
        (p._decompressor.init z o.getServerMaxWindowBits o.getClientNoContextTakeover).2) ∧
    ((p._compressor.init z o.getClientMaxWindowBits o.getClientNoContextTakeover).1 = false →
      (p.init z o).1 = false ∧ (p.init z o).2._decompressor = p._decompressor) := by
  unfold WebSocketPerMessageDeflate.init
  cases h : (p._compressor.init z o.getClientMaxWindowBits o.getClientNoContextTakeover).1 <;>
    simp [h]

/-! ## Decompression -/

/-- C5: `decompress` returns `(ok, d₁, out₁)` with fuel `fuel` exactly when some
step `n < fuel` of its drain loop is the first that reports `Z_NEED_DICT`,
`Z_DATA_ERROR` or `Z_MEM_ERROR` or that leaves room in the scratch buffer.  The
result is false exactly when step `n` reports one of the three codes, no step
before it does, the object is the one left by step `n` (no further step runs)
and `out` has received the bytes of the steps before `n` only. -/
theorem decompress_fails_iff_zlibError {σ : Type} (z : Zlib σ) (fuel : Nat)
    (d : WebSocketPerMessageDeflateDecompressor σ) (input out : List Byte) (ok : Bool)
    (d₁ : WebSocketPerMessageDeflateDecompressor σ) (out₁ : List Byte) :
    d.decompress z fuel input out = some (ok, d₁, out₁) ↔
      ∃ n, n < fuel ∧
        (∀ i, i < n → zlibError z
          (inflateStep z (decompressorAfter z i (decompressSubmit z d input))).ret = false) ∧
        (∀ chunk ∈ inflateChunks z n (decompressSubmit z d input),
          chunk.length = kBufferSize) ∧
        ok = !zlibError z
          (inflateStep z (decompressorAfter z n (decompressSubmit z d input))).ret ∧
        (ok = true →
          (inflateStep z (decompressorAfter z n (decompressSubmit z d input))).written.length
            < kBufferSize) ∧
        d₁ = decompressorAfter z (n + 1) (decompressSubmit z d input) ∧
        out₁ = out ++
          (inflateChunks z (if ok then n + 1 else n) (decompressSubmit z d input)).flatten :=
  decompressLoop_eq_some z fuel (decompressSubmit z d input) out ok d₁ out₁

/-- C6 as stated fails: with a 32-bit `uInt`, for an input of 4294967292 bytes
the copy `inFixed` has 4294967296 bytes and the cast to `uInt` makes `avail_in`
zero, so the library is told that nothing was submitted. -/
theorem decompress_submit_wraps :
    (List.replicate 4294967292 (0 : Byte) ++ kEmptyUncompressedBlock).length = 4294967296 ∧
    (decompressSubmit scriptZlib (scriptDecompressor [])
      (List.replicate 4294967292 0))._inflateState.avail_in = 0 := by
  constructor
  · rw [List.length_append, List.length_replicate]
    rfl
  · show ix.Zlib.toUInt scriptZlib
      (List.replicate 4294967292 (0 : Byte) ++ kEmptyUncompressedBlock).length = 0
    rw [List.length_append, List.length_replicate]
    rfl

/-- C6 as amended: for every input `W` whose length plus 4 is below
`2 ^ uIntBits`, `decompress` hands the library `W` followed by `00 00 ff ff` with
`avail_in` equal to the length of `W` plus 4; the first step is made on exactly
that stream, with the whole scratch buffer as output space and `Z_SYNC_FLUSH`,
and every later step continues from the stream the step before it left. -/
theorem decompress_submits_input_and_marker {σ : Type} (z : Zlib σ)
    (d : WebSocketPerMessageDeflateDecompressor σ) (W : List Byte)
    (hW : W.length + 4 < 2 ^ z.uIntBits) :
    (decompressSubmit z d W)._inflateState.next_in = W ++ [0x00, 0x00, 0xff, 0xff] ∧
    (decompressSubmit z d W)._inflateState.avail_in = W.length + 4 ∧
    inflateStep z (decompressSubmit z d W) =
      z.inflate
        { next_in := W ++ [0x00, 0x00, 0xff, 0xff], avail_in := W.length + 4,
          avail_out := kBufferSize, state := d._inflateState.state } z.Z_SYNC_FLUSH ∧
    (∀ fuel out, d.decompress z fuel W out = decompressLoop z fuel (decompressSubmit z d W) out) ∧
    ∀ n, (decompressorAfter z (n + 1) (decompressSubmit z d W))._inflateState =
      (inflateStep z (decompressorAfter z n (decompressSubmit z d W))).strm := by
  have hlen : z.toUInt (W ++ kEmptyUncompressedBlock).length = W.length + 4 := by
    simp only [Zlib.toUInt, List.length_append, kEmptyUncompressedBlock, List.length_cons,
      List.length_nil]
    exact Nat.mod_eq_of_lt hW
  refine ⟨rfl, hlen, ?_, fun _ _ => rfl, fun n => ?_⟩
  · simp only [inflateStep, decompressSubmit, hlen, toUInt_kBufferSize]
    rfl
  · rw [decompressorAfter_succ]

/-- C6 as amended, run on the one-byte input `61` over the scripted library. -/
theorem decompress_submits_input_and_marker_witness :
    (decompressSubmit scriptZlib (scriptDecompressor []) [0x61])._inflateState.next_in =
      [0x61] ++ [0x00, 0x00, 0xff, 0xff] ∧
    (decompressSubmit scriptZlib (scriptDecompressor []) [0x61])._inflateState.avail_in =
      [(0x61 : Byte)].length + 4 :=
  have h := decompress_submits_input_and_marker scriptZlib (scriptDecompressor []) [0x61]
    (by decide)
  ⟨h.1, h.2.1⟩

/-! ## Compression -/

/-- C4: let the library flush in the format `zlib.h` documents, and take any
compressor reached, through calls of `compress`, from a successful `init`.  For
every non-empty payload on which `compress` returns, starting from an empty
`out`, the bytes it returns do not end with `00 00 ff ff`. -/
theorem compress_never_endsWith_marker {σ : Type} (z : Zlib σ) (hz : z.flushFormat)
    (c₀ : WebSocketPerMessageDeflateCompressor σ) (deflateBits : Fin 256)
    (clientNoContextTakeOver : Bool) (c₁ c : WebSocketPerMessageDeflateCompressor σ)
    (hinit : c₀.init z deflateBits clientNoContextTakeOver = (true, c₁))
    (hreach : CompressorReach z c₁ c) (fuel : Nat) (input : List Byte) (ok : Bool)
    (c₂ : WebSocketPerMessageDeflateCompressor σ) (out₂ : List Byte) (hin : input ≠ [])
    (h : c.compress z fuel input [] = some (ok, c₂, out₂)) :
    endsWith out₂ kEmptyUncompressedBlock = false := by
  have hmode : c._flush = z.Z_SYNC_FLUSH ∨ c._flush = z.Z_FULL_FLUSH := by
    rw [reach_flush z c₁ c hreach, init_flush z c₀ deflateBits clientNoContextTakeOver c₁ hinit]
    cases clientNoContextTakeOver
    · exact Or.inl rfl
    · exact Or.inr rfl
  obtain ⟨n, -, hfull, hlast, -, -, hout⟩ :=
    compress_calls_deflate z fuel c c._flush rfl input [] ok c₂ out₂ hin h
  simp only [List.nil_append] at hout
  have hfmt := hz (compressSubmit z c input)._deflateState c._flush n hmode hfull hlast
  apply Bool.eq_false_iff.2
  intro hends
  rw [hout] at hends
  obtain ⟨p, hp⟩ := (endsWith_after_truncation _).1 hends
  rcases hfmt with hnil | ⟨pre, b, hb, hraw⟩
  · rw [hnil] at hp
    simp at hp
  · rw [hraw] at hp
    have hsplit : pre ++ b :: kEmptyUncompressedBlock =
        (p ++ [0x00, 0x00, 0xff]) ++ (0xff : Byte) :: kEmptyUncompressedBlock := by
      rw [hp]
      simp [kEmptyUncompressedBlock]
    have hb2 : b = 0xff := (List.cons.inj (List.append_inj' hsplit rfl).2).1
    rw [hb2] at hb
    exact absurd hb (by decide)

/-- C4 run over the echoing library, whose single step stores
`03 00 00 00 ff ff` for the payload `61`: `compress` returns `03 00`. -/
theorem compress_never_endsWith_marker_witness :
    echoCompressor.init echoZlib 15 true = (true, echoCompressorFull) ∧
    echoCompressorFull.compress echoZlib 1 [0x61] [] =
      some (true, echoCompressorFullAfter, [0x03, 0x00]) ∧
    endsWith [0x03, 0x00] kEmptyUncompressedBlock = false :=
  ⟨rfl, rfl,
    compress_never_endsWith_marker echoZlib echoZlib_flushFormat echoCompressor 15 true
      echoCompressorFull echoCompressorFull rfl CompressorReach.start 1 [0x61] true
      echoCompressorFullAfter [0x03, 0x00] (by decide) rfl⟩

/-- C8: when `init` of the compressor returns true, the stored `_flush` is
`Z_FULL_FLUSH` if `clientNoContextTakeOver` is true and `Z_SYNC_FLUSH` if not.
Every object reached from there through calls of `compress` still stores that
mode, and every call of `compress` on such an object with a non-empty input is
made of calls of `deflate` with exactly that mode: if it returns, then for some
`n` the object it leaves and the bytes its loop appends to `out` are those of
`n + 1` consecutive calls of `deflate` with that mode on the submitted stream,
the first `n` filling the scratch buffer and the last one not. -/
theorem compressor_flush_mode {σ : Type} (z : Zlib σ)
    (c : WebSocketPerMessageDeflateCompressor σ) (deflateBits : Fin 256)
    (clientNoContextTakeOver : Bool) (c₁ : WebSocketPerMessageDeflateCompressor σ)
    (h : c.init z deflateBits clientNoContextTakeOver = (true, c₁)) :
    c₁._flush = (if clientNoContextTakeOver then z.Z_FULL_FLUSH else z.Z_SYNC_FLUSH) ∧
    ∀ c₂, CompressorReach z c₁ c₂ →
      c₂._flush = (if clientNoContextTakeOver then z.Z_FULL_FLUSH else z.Z_SYNC_FLUSH) ∧
      ∀ (fuel : Nat) (input out : List Byte) (ok : Bool)
        (c₃ : WebSocketPerMessageDeflateCompressor σ) (out₃ : List Byte), input ≠ [] →
        c₂.compress z fuel input out = some (ok, c₃, out₃) →
        ∃ n, n < fuel ∧
          (∀ chunk ∈ writtenBy z
              (if clientNoContextTakeOver then z.Z_FULL_FLUSH else z.Z_SYNC_FLUSH) n
              (compressSubmit z c₂ input)._deflateState, chunk.length = kBufferSize) ∧
          (deflateWith z (if clientNoContextTakeOver then z.Z_FULL_FLUSH else z.Z_SYNC_FLUSH)
            (streamAfter z (if clientNoContextTakeOver then z.Z_FULL_FLUSH else z.Z_SYNC_FLUSH) n
              (compressSubmit z c₂ input)._deflateState)).written.length < kBufferSize ∧
          c₃ = { c₂ with
            _deflateState := streamAfter z
              (if clientNoContextTakeOver then z.Z_FULL_FLUSH else z.Z_SYNC_FLUSH) (n + 1)
              (compressSubmit z c₂ input)._deflateState } ∧
          compressLoop z fuel (compressSubmit z c₂ input) out =
            some (c₃, out ++ (writtenBy z
              (if clientNoContextTakeOver then z.Z_FULL_FLUSH else z.Z_SYNC_FLUSH) (n + 1)
              (compressSubmit z c₂ input)._deflateState).flatten) := by
  have h1 := init_flush z c deflateBits clientNoContextTakeOver c₁ h
  refine ⟨h1, fun c₂ hreach => ?_⟩
  have h2 : c₂._flush =
      (if clientNoContextTakeOver then z.Z_FULL_FLUSH else z.Z_SYNC_FLUSH) :=
    (reach_flush z c₁ c₂ hreach).trans h1
  refine ⟨h2, fun fuel input out ok c₃ out₃ hin hcall => ?_⟩
  obtain ⟨n, hn, hfull, hlast, hc, hloop, -⟩ :=
    compress_calls_deflate z fuel c₂ _ h2 input out ok c₃ out₃ hin hcall
  exact ⟨n, hn, hfull, hlast, hc, hloop⟩

/-- C8 run over the echoing library, which stores the mode it receives: after
`init` with no context takeover the stored mode is 3, `compress` of the payload
`61` returns `03 00`, and its single step is a call of `deflate` with mode 3. -/
theorem compressor_flush_mode_witness :
    echoCompressor.init echoZlib 15 true = (true, echoCompressorFull) ∧
    echoCompressorFull._flush = 3 ∧
    echoCompressorFull.compress echoZlib 1 [0x61] [] =
      some (true, echoCompressorFullAfter, [0x03, 0x00]) ∧
    ∃ n, n < 1 ∧
      (∀ chunk ∈ writtenBy echoZlib 3 n (compressSubmit echoZlib echoCompressorFull [0x61])._deflateState,
        chunk.length = kBufferSize) ∧
      (deflateWith echoZlib 3
        (streamAfter echoZlib 3 n
          (compressSubmit echoZlib echoCompressorFull [0x61])._deflateState)).written.length
            < kBufferSize ∧
      echoCompressorFullAfter = { echoCompressorFull with
        _deflateState := streamAfter echoZlib 3 (n + 1)
          (compressSubmit echoZlib echoCompressorFull [0x61])._deflateState } ∧
      compressLoop echoZlib 1 (compressSubmit echoZlib echoCompressorFull [0x61]) [] =
        some (echoCompressorFullAfter, [] ++ (writtenBy echoZlib 3 (n + 1)
          (compressSubmit echoZlib echoCompressorFull [0x61])._deflateState).flatten) :=
  ⟨rfl, (compressor_flush_mode echoZlib echoCompressor 15 true echoCompressorFull rfl).1, rfl,
    ((compressor_flush_mode echoZlib echoCompressor 15 true echoCompressorFull rfl).2
      echoCompressorFull CompressorReach.start).2 1 [0x61] [] true echoCompressorFullAfter
      [0x03, 0x00] (by decide) rfl⟩

end ix
